import Mathlib

/-!
Shallow embedding of the mini-govuk search index engine and router.

The search engine is embedded from the search API service source
(`tokenizeText`, `generateSnippet`, `buildSearchIndex`, `indexDocument`,
`incrementalIndexUpdate`, the `/search` handler); the router from
`router/index.js` (`refreshRoutes`, the admin proxy middleware and the
content-path GET handler).

JavaScript objects used as string-keyed maps are embedded as functions
`String → Option _`; JavaScript `Set`s as duplicate-free lists in insertion
order.  Machine timestamps (`Date`) are embedded as `Int`.  Outbound HTTP
calls are embedded by passing the upstream outcome as an explicit argument:
`Except Unit _` for a call that may throw, so a `try`/`catch` block becomes a
`match` on that argument.  JS strings are ASCII in every claim considered
here, so `toLowerCase` is embedded as the basic-latin `Char.toLower` map and
the regex classes `\w`, `\s` as their ASCII readings.
-/

namespace MiniGovuk

/-- Character class of the regex `\w`: letters, digits and underscore. -/
def isWordChar (c : Char) : Bool :=
  c.isAlphanum || c == '_'

/-- Character class of the regex `\s`, ASCII part: space, tab, newline,
carriage return, vertical tab, form feed. -/
def isSpaceChar (c : Char) : Bool :=
  c == ' ' || c == '\t' || c == '\n' || c == '\r' || c == '\x0b' || c == '\x0c'

/-- One character of `.replace(/[^\w\s]/g, ' ')`: any character that is
neither a word character nor whitespace becomes a space. -/
def replaceNonWordChar (c : Char) : Char :=
  if !isWordChar c && !isSpaceChar c then ' ' else c

/-- Model of `String.prototype.toLowerCase` on the ASCII strings considered here:
lowercase every character. -/
def jsToLower (s : String) : String :=
  String.mk (s.data.map Char.toLower)

/-- Split a character list at every separator character.  Between two
consecutive separators this yields an empty fragment where the JS
`split(/\s+/)` run-collapsing yields none; the two agree after the
length-`> 1` filter of `tokenizeText`, which drops empty fragments. -/
def splitChars (p : Char → Bool) : List Char → List (List Char)
  | [] => [[]]
  | c :: cs =>
    if p c then [] :: splitChars p cs
    else
      match splitChars p cs with
      | [] => [[c]]
      | t :: ts => (c :: t) :: ts

/-- Function `tokenizeText` from the search API: lowercase, replace every character
outside `[\w\s]` by a space, split on whitespace, keep tokens of length
greater than one. -/
def tokenizeText (text : String) : List String :=
  ((splitChars isSpaceChar ((jsToLower text).data.map replaceNonWordChar)).map
    String.mk).filter (fun token => 1 < token.length)

/-- One part of a guide document (`{title, body}`). -/
structure GuidePart where
  title : String
  body : String
deriving Repr, DecidableEq

/-- A content item as served by the publishing API. -/
structure Content where
  _id : String
  path : String
  title : String
  document_type : String
  body : String
  introduction : String
  parts : List GuidePart
  state : String
  updatedAt : Int
deriving Repr, DecidableEq

/-- A document as stored in `searchIndex.documents`. -/
structure IndexedDoc where
  id : String
  path : String
  title : String
  type : String
  text : String
  updatedAt : Int
deriving Repr, DecidableEq

/-- The `searchIndex` object: `documents` keyed by document id, and the
inverted `tokenizedIndex` keyed by token. -/
structure SearchIndex where
  documents : String → Option IndexedDoc
  tokenizedIndex : String → Option (List String)

/-- The searchable text computed at the top of `indexDocument`:
title plus body for a simple page, title plus introduction plus every part
for a guide, bare title (plus separator) for anything else. -/
def searchableTextOf (content : Content) : String :=
  let base := content.title ++ " "
  if content.document_type == "simple-page" then
    base ++ content.body
  else if content.document_type == "guide" then
    content.parts.foldl
      (fun acc part => acc ++ part.title ++ " " ++ part.body ++ " ")
      (base ++ content.introduction ++ " ")
  else
    base

/-- One iteration of the old-token removal loop of `indexDocument`: delete
`docId` from the set under `tok` when that set exists, and drop the entry
entirely when the set becomes empty. -/
def removeIdFromToken (idx : String → Option (List String)) (tok docId : String) :
    String → Option (List String) :=
  fun t =>
    if t = tok then
      match idx tok with
      | none => none
      | some ids =>
        let remaining := ids.filter (fun i => i != docId)
        if remaining = [] then none else some remaining
    else idx t

/-- One iteration of the token-insertion loop of `indexDocument`: create the
set under `tok` if missing, then add `docId` (a JS `Set.add`, so appending
only when absent). -/
def addIdToToken (idx : String → Option (List String)) (tok docId : String) :
    String → Option (List String) :=
  fun t =>
    if t = tok then
      match idx tok with
      | none => some [docId]
      | some ids => some (if ids.contains docId then ids else ids ++ [docId])
    else idx t

/-- Model of `[...new Set(tokens)]`: duplicates removed, first occurrences kept in
order. -/
def jsSetDedup (tokens : List String) : List String :=
  tokens.foldl (fun acc tok => if acc.contains tok then acc else acc ++ [tok]) []

/-- Function `indexDocument` from the search API: compute the searchable text; if the
id is already present, remove it from every token of the previously stored
text (deleting entries that become empty); store the new document with
lowercased text; add the id under every unique token of the new text. -/
def indexDocument (st : SearchIndex) (content : Content) : SearchIndex :=
  let searchableText := searchableTextOf content
  let afterRemove :=
    match st.documents content._id with
    | some oldDoc =>
      (tokenizeText oldDoc.text).foldl
        (fun idx tok => removeIdFromToken idx tok content._id) st.tokenizedIndex
    | none => st.tokenizedIndex
  let newDoc : IndexedDoc :=
    { id := content._id, path := content.path, title := content.title,
      type := content.document_type, text := jsToLower searchableText,
      updatedAt := content.updatedAt }
  { documents := fun i => if i = content._id then some newDoc else st.documents i,
    tokenizedIndex :=
      (jsSetDedup (tokenizeText searchableText)).foldl
        (fun idx tok => addIdToToken idx tok content._id) afterRemove }

/-- The state cleared by `buildSearchIndex`: both maps empty. -/
def emptySearchIndex : SearchIndex :=
  { documents := fun _ => none, tokenizedIndex := fun _ => none }

/-- Indexing a list of contents into a cleared index, as the
`contents.forEach(indexDocument)` loop of `buildSearchIndex` does. -/
def runIndex (contents : List Content) : SearchIndex :=
  contents.foldl indexDocument emptySearchIndex

/-- The whole mutable state of the search API process: the index object and
the `lastIndexedTime` variable (`null` before the first successful build). -/
structure SearchAPIState where
  index : SearchIndex
  lastIndexedTime : Option Int

/-- Function `buildSearchIndex`: fetch all published content; on success clear both
maps, index every content, and set `lastIndexedTime` to the completion time;
on a fetch failure the `catch` block only logs, leaving the state untouched. -/
def buildSearchIndex (fetchPublished : Except Unit (List Content)) (now : Int)
    (st : SearchAPIState) : SearchAPIState :=
  match fetchPublished with
  | .error _ => st
  | .ok contents => { index := runIndex contents, lastIndexedTime := some now }

/-- Function `incrementalIndexUpdate`: with no prior build, delegate to
`buildSearchIndex`; otherwise fetch all content, keep the items updated
strictly after `lastIndexedTime` and currently published, and when that list
is empty return early; otherwise index the survivors and advance
`lastIndexedTime` to now.  A fetch failure leaves the state untouched. -/
def incrementalIndexUpdate (fetchAll fetchPublished : Except Unit (List Content))
    (now : Int) (st : SearchAPIState) : SearchAPIState :=
  match st.lastIndexedTime with
  | none => buildSearchIndex fetchPublished now st
  | some t =>
    match fetchAll with
    | .error _ => st
    | .ok allContent =>
      let updatedContents :=
        allContent.filter (fun content => t < content.updatedAt && content.state == "published")
      if updatedContents = [] then st
      else
        { index := updatedContents.foldl indexDocument st.index,
          lastIndexedTime := some now }

/-- Model of `String.prototype.includes`: substring containment. -/
def jsIncludes (s pat : String) : Bool :=
  decide (pat.data <:+: s.data)

/-- Model of `String.prototype.startsWith`. -/
def jsStartsWith (s pat : String) : Bool :=
  pat.data.isPrefixOf s.data

/-- Model of `text.substring(a, b)` for `a ≤ b`: the characters in positions
`[a, b)`. -/
def jsSubstring (s : String) (a b : Nat) : String :=
  String.mk ((s.data.take b).drop a)

/-- Model of `haystack.indexOf(pat)` as an optional position: the first index at
which `pat` occurs in `s`, if any (`none` embeds the JS result `-1`). -/
def firstSubstrPos (s pat : List Char) : Option Nat :=
  if pat.isPrefixOf s then some 0
  else
    match s with
    | [] => none
    | _ :: rest => (firstSubstrPos rest pat).map (fun n => n + 1)

/-- The `bestPosition` loop of `generateSnippet`: the earliest position in
`lowerText` at which any query token occurs. -/
def bestTokenPos (lowerText : String) (queryTokens : List String) : Option Nat :=
  queryTokens.foldl
    (fun best tok =>
      match firstSubstrPos lowerText.data tok.data with
      | none => best
      | some pos =>
        match best with
        | none => some pos
        | some b => if pos < b then some pos else some b)
    none

/-- The backward word-boundary loop of `generateSnippet`:
`while (startPos > 0 && text[startPos] !== ' ') startPos--`. -/
def snapBack (cs : List Char) : Nat → Nat
  | 0 => 0
  | i + 1 => if cs.getD (i + 1) ' ' == ' ' then i + 1 else snapBack cs i

/-- One step bound of the forward word-boundary loop: the position advances
by one while below `cs.length`, so `cs.length - i` steps always suffice; the
fuel argument makes the recursion structural. -/
def snapForwardAux (cs : List Char) : Nat → Nat → Nat
  | 0, i => i
  | fuel + 1, i =>
    if i < cs.length then
      if cs.getD i ' ' == ' ' then i else snapForwardAux cs fuel (i + 1)
    else i

/-- The forward word-boundary loop of `generateSnippet`:
`while (endPos < text.length && text[endPos] !== ' ') endPos++`. -/
def snapForward (cs : List Char) (i : Nat) : Nat :=
  snapForwardAux cs (cs.length - i) i

/-- Function `generateSnippet` from the search API with its default `maxLength` of
160: a bounded excerpt centred on the earliest query-token occurrence,
word-boundary aligned, with ellipsis markers when truncated; the first 160
characters plus ellipsis when the text is empty, the token list is empty or
no token occurs. -/
def generateSnippet (text : String) (queryTokens : List String) : String :=
  let maxLength := 160
  if text.length = 0 ∨ queryTokens = [] then
    jsSubstring text 0 maxLength ++ "..."
  else
    let lowerText := jsToLower text
    match bestTokenPos lowerText queryTokens with
    | none => jsSubstring text 0 maxLength ++ "..."
    | some bestPosition =>
      let start0 := bestPosition - 60
      let end0 := min text.length (start0 + maxLength)
      let startPos := snapBack text.data start0
      let endPos := snapForward text.data end0
      let snippet := jsSubstring text startPos endPos
      let snippet := if 0 < startPos then "..." ++ snippet else snippet
      if endPos < text.length then snippet ++ "..." else snippet

/-- One entry of the `results` array returned by the `/search` handler. -/
structure SearchResult where
  id : String
  title : String
  path : String
  type : String
  snippet : String
  updatedAt : Int
  relevance : Nat
deriving Repr, DecidableEq

/-- The JSON object returned by the `/search` handler. -/
structure SearchResponse where
  results : List SearchResult
  total : Nat
  page : Nat
  pageSize : Nat
  totalPages : Nat
deriving Repr, DecidableEq

/-- The candidate-id computation of the `/search` handler: the set under the
first token (a missing token acting as the empty set), intersected with the
set under each further token, in insertion order. -/
def matchingIdsFor (idx : String → Option (List String)) : List String → List String
  | [] => []
  | t :: ts =>
    ts.foldl
      (fun acc tok => acc.filter (fun i => ((idx tok).getD []).contains i))
      ((idx t).getD [])

/-- The relevance loop of the `/search` handler, over an already lowercased
title: per token, 3 for a title occurrence plus 2 more when the title starts
with the token, and 1 for an occurrence in the full text. -/
def relevanceOf (queryTokens : List String) (titleText text : String) : Nat :=
  queryTokens.foldl
    (fun r tok =>
      let r1 :=
        if jsIncludes titleText tok then
          r + 3 + (if jsStartsWith titleText tok then 2 else 0)
        else r
      if jsIncludes text tok then r1 + 1 else r1)
    0

/-- The `type` query-parameter filter: absent means no filtering. -/
def matchesType : Option String → String → Bool
  | none, _ => true
  | some ty, docType => docType == ty

/-- The candidate-to-result map of the `/search` handler: look the id up in
`documents` (ids reached through the token index are always present), drop it
on a type-filter mismatch or a zero relevance, otherwise build the result
record with its snippet. -/
def searchResultFor (st : SearchIndex) (queryTokens : List String)
    (typeFilter : Option String) (docId : String) : Option SearchResult :=
  match st.documents docId with
  | none => none
  | some doc =>
    if matchesType typeFilter doc.type then
      let relevance := relevanceOf queryTokens (jsToLower doc.title) doc.text
      if relevance = 0 then none
      else
        some { id := doc.id, title := doc.title, path := doc.path,
               type := doc.type, snippet := generateSnippet doc.text queryTokens,
               updatedAt := doc.updatedAt, relevance := relevance }
    else none

/-- The comparator of the JS `sort((a, b) => b.relevance - a.relevance)`:
`a` may come before `b` when its relevance is at least `b`'s. -/
def relevanceGe (a b : SearchResult) : Prop :=
  b.relevance ≤ a.relevance

instance : DecidableRel relevanceGe :=
  fun a b => Nat.decLe b.relevance a.relevance

instance : IsTotal SearchResult relevanceGe :=
  ⟨fun a b => Nat.le_total b.relevance a.relevance⟩

instance : IsTrans SearchResult relevanceGe :=
  ⟨fun _ _ _ h1 h2 => Nat.le_trans h2 h1⟩

/-- The full filtered and sorted result list of the `/search` handler, before
pagination.  The JS `sort((a, b) => b.relevance - a.relevance)` is a stable
descending sort by relevance, embedded as a stable insertion sort under
`relevanceGe`. -/
def searchResultsFor (st : SearchIndex) (queryTokens : List String)
    (typeFilter : Option String) : List SearchResult :=
  List.insertionSort relevanceGe
    ((matchingIdsFor st.tokenizedIndex queryTokens).filterMap
      (searchResultFor st queryTokens typeFilter))

/-- The `/search` handler.  `page` and `pageSize` are the values after
`parseInt(..) || 1` and `parseInt(..) || 10`, hence positive naturals.  An
empty query or an empty token list returns the empty response immediately;
otherwise the sorted results are sliced to `[(page-1)*pageSize,
page*pageSize)` and `totalPages` is `Math.ceil(total / pageSize)`. -/
def search (st : SearchIndex) (q : String) (page pageSize : Nat)
    (typeFilter : Option String) : SearchResponse :=
  let query := jsToLower q
  if query.length = 0 then
    { results := [], total := 0, page := page, pageSize := pageSize, totalPages := 0 }
  else
    let queryTokens := tokenizeText query
    if queryTokens = [] then
      { results := [], total := 0, page := page, pageSize := pageSize, totalPages := 0 }
    else
      let results := searchResultsFor st queryTokens typeFilter
      let total := results.length
      let startIndex := (page - 1) * pageSize
      { results := (results.drop startIndex).take pageSize,
        total := total, page := page, pageSize := pageSize,
        totalPages := (total + pageSize - 1) / pageSize }

/-- One route-cache entry (`{contentId, documentType}`). -/
structure RouteEntry where
  contentId : String
  documentType : String
deriving Repr, DecidableEq

/-- Function `refreshRoutes` from the router: fetch the published content; on success
clear the cache and repopulate one entry per content keyed by path; on a
fetch failure the `catch` block only logs, leaving the cache untouched. -/
def refreshRoutes (fetchPublished : Except Unit (List Content))
    (routeCache : String → Option RouteEntry) : String → Option RouteEntry :=
  match fetchPublished with
  | .error _ => routeCache
  | .ok contents =>
    contents.foldl
      (fun cache content => fun p =>
        if p = content.path then
          some { contentId := content._id, documentType := content.document_type }
        else cache p)
      (fun _ => none)

/-- An upstream HTTP response: status, headers and body. -/
structure UpstreamResponse where
  status : Nat
  headers : List (String × String)
  body : String
deriving Repr, DecidableEq

/-- What the router sends back to its client; `body = none` embeds
`res.end()` with no body written. -/
structure ClientResponse where
  status : Nat
  headers : List (String × String)
  body : Option String
deriving Repr, DecidableEq

/-- The outcome of one outbound request before axios applies
`validateStatus`: either a definite upstream response or a transport
failure. -/
inductive FetchOutcome where
  | ok (r : UpstreamResponse)
  | transportError
deriving Repr, DecidableEq

/-- An axios call: a transport failure throws, and a response whose status is
rejected by `validateStatus` also throws. -/
def axiosRequest (validateStatus : Nat → Bool) :
    FetchOutcome → Except Unit UpstreamResponse
  | .ok r => if validateStatus r.status then .ok r else .error ()
  | .transportError => .error ()

/-- axios's default `validateStatus`: only 2xx is accepted. -/
def axiosDefaultValidate (s : Nat) : Bool :=
  decide (200 ≤ s) && decide (s < 300)

/-- The admin proxy middleware's `validateStatus`:
`(status) => status >= 200 && status < 500`. -/
def adminValidateStatus (s : Nat) : Bool :=
  decide (200 ≤ s) && decide (s < 500)

/-- The relay part of the admin proxy middleware, as a function of the
upstream outcome: relay the status and all upstream headers, end without a
body on 304, otherwise send the upstream body; the `catch` block answers 500
with a fixed message (and no upstream headers). -/
def adminProxy (upstream : FetchOutcome) : ClientResponse :=
  match axiosRequest adminValidateStatus upstream with
  | .error _ =>
    { status := 500, headers := [], body := some "Error processing admin request" }
  | .ok r =>
    { status := r.status, headers := r.headers,
      body := if r.status == 304 then none else some r.body }

/-- The frontend target of the search branch of the router's GET handler:
`/search` plus the `q` parameter when present (URL percent-encoding of the
parameter is not modelled). -/
def searchTarget (q : Option String) : String :=
  match q with
  | some query => "/search?q=" ++ query
  | none => "/search"

/-- The `GET /:path(*)` handler of `router/index.js`, as a function of the
route cache and of the frontend's response per target path.  The search and
home branches and both cache branches issue a default-validated axios GET
(non-2xx throws); a successful `res.send(response.data)` leaves express's
default 200 status; the cache-miss branch fetches `/404` and answers 404
with the page when that fetch succeeds and with a fixed fallback body when
it throws. -/
def routerGetHandler (routeCache : String → Option RouteEntry)
    (frontend : String → FetchOutcome) (q : Option String) (path : String) :
    ClientResponse :=
  if jsStartsWith path "search" then
    match axiosRequest axiosDefaultValidate (frontend (searchTarget q)) with
    | .ok r => { status := 200, headers := [], body := some r.body }
    | .error _ =>
      { status := 500, headers := [], body := some "Error processing search request" }
  else if path = "" then
    match axiosRequest axiosDefaultValidate (frontend "/") with
    | .ok r => { status := 200, headers := [], body := some r.body }
    | .error _ =>
      { status := 500, headers := [], body := some "Error processing homepage request" }
  else
    match routeCache path with
    | none =>
      match axiosRequest axiosDefaultValidate (frontend "/404") with
      | .ok r => { status := 404, headers := [], body := some r.body }
      | .error _ => { status := 404, headers := [], body := some "Page not found" }
    | some _ =>
      match axiosRequest axiosDefaultValidate (frontend ("/" ++ path)) with
      | .ok r => { status := 200, headers := [], body := some r.body }
      | .error _ =>
        { status := 500, headers := [], body := some "Error processing content request" }

/-- Membership of a document id in the set stored under a token. -/
def idxMem (idx : String → Option (List String)) (tok docId : String) : Prop :=
  ∃ ids, idx tok = some ids ∧ docId ∈ ids

/-- No token maps to a stored empty set: `indexDocument` deletes entries
whose set becomes empty. -/
def NoEmptyEntry (idx : String → Option (List String)) : Prop :=
  ∀ tok, idx tok ≠ some []

/-- Index consistency: entries are never empty, and a document id appears
under a token exactly when that token is among the tokens of the document's
currently stored text. -/
def Consistent (st : SearchIndex) : Prop :=
  NoEmptyEntry st.tokenizedIndex ∧
  ∀ tok docId, idxMem st.tokenizedIndex tok docId ↔
    ∃ d, st.documents docId = some d ∧ tok ∈ tokenizeText d.text

/-- Every stored document text is already lowercased (it is stored through
`jsToLower`). -/
def TextLowered (st : SearchIndex) : Prop :=
  ∀ i d, st.documents i = some d → ∀ c ∈ d.text.data, Char.toLower c = c

/-- The relevance formula as the spec words it, for comparison with the
code's `relevanceOf`: per query token, 3 when the token occurs anywhere in
the lowercased title, an additional 2 when the title starts with the token,
and 1 when the token occurs anywhere in the full text, summed over the
tokens. -/
def specRelevance (queryTokens : List String) (titleText text : String) : Nat :=
  (queryTokens.map (fun tok =>
    (if jsIncludes titleText tok then 3 else 0) +
    (if jsStartsWith titleText tok then 2 else 0) +
    (if jsIncludes text tok then 1 else 0))).sum

/-- A simple page with title "alpha" and body "beta": its searchable text is
"alpha beta". -/
def exContentAlphaBeta : Content :=
  { _id := "D", path := "d", title := "alpha", document_type := "simple-page",
    body := "beta", introduction := "", parts := [], state := "published",
    updatedAt := 1 }

/-- The same document id re-submitted with title "gamma" and empty body: its
searchable text tokenizes to just "gamma". -/
def exContentGamma : Content :=
  { _id := "D", path := "d", title := "gamma", document_type := "simple-page",
    body := "", introduction := "", parts := [], state := "published",
    updatedAt := 2 }

/-- Document D1 of the AND-semantics example: searchable text "apple pie". -/
def exContentApplePie : Content :=
  { _id := "D1", path := "d1", title := "apple", document_type := "simple-page",
    body := "pie", introduction := "", parts := [], state := "published",
    updatedAt := 1 }

/-- Document D2 of the AND-semantics example: searchable text "apple sauce". -/
def exContentAppleSauce : Content :=
  { _id := "D2", path := "d2", title := "apple", document_type := "simple-page",
    body := "sauce", introduction := "", parts := [], state := "published",
    updatedAt := 1 }

/-- A search API state after a successful build at time 1 with an empty
index. -/
def exStateC2 : SearchAPIState :=
  { index := emptySearchIndex, lastIndexedTime := some 1 }

/-- A route cache holding the single published path "about". -/
def exRouteCacheAbout : String → Option RouteEntry :=
  fun p => if p = "about" then some { contentId := "id1", documentType := "simple-page" } else none

/-- A frontend that answers every request with a 404 carrying the body
"gone". -/
def exFrontendNotFound : String → FetchOutcome :=
  fun _ => .ok { status := 404, headers := [], body := "gone" }

theorem toLower_toLower (c : Char) : Char.toLower (Char.toLower c) = Char.toLower c := by
  unfold Char.toLower
  by_cases h : c.toNat ≥ 65 ∧ c.toNat ≤ 90
  · rw [if_pos h]
    have hv : (c.toNat + 32).isValidChar := Or.inl (by omega)
    have ht : (Char.ofNat (c.toNat + 32)).toNat = c.toNat + 32 := by
      rw [Char.ofNat, dif_pos hv]
      simp [Char.ofNatAux, Char.toNat, UInt32.toNat, BitVec.toNat_ofNatLt]
    rw [if_neg]
    rw [ht]
    omega
  · rw [if_neg h, if_neg h]

theorem jsToLower_idem (s : String) : jsToLower (jsToLower s) = jsToLower s := by
  simp [jsToLower, List.map_map, Function.comp_def, toLower_toLower]

theorem tokenizeText_jsToLower (s : String) :
    tokenizeText (jsToLower s) = tokenizeText s := by
  unfold tokenizeText
  rw [jsToLower_idem]

theorem splitChars_ne_nil (p : Char → Bool) (cs : List Char) : splitChars p cs ≠ [] := by
  induction cs with
  | nil => simp [splitChars]
  | cons c cs ih =>
    simp only [splitChars]
    cases hp : p c <;> cases hs : splitChars p cs <;> simp_all

theorem splitChars_head_starts (p : Char → Bool) (cs : List Char) (t : List Char)
    (ts : List (List Char)) (h : splitChars p cs = t :: ts) : t <+: cs := by
  induction cs generalizing t ts with
  | nil =>
    simp [splitChars] at h
    simp [h.1]
  | cons c cs ih =>
    simp only [splitChars] at h
    cases hp : p c
    · rw [hp] at h
      simp only [Bool.false_eq_true, if_false] at h
      cases hs : splitChars p cs with
      | nil => exact absurd hs (splitChars_ne_nil p cs)
      | cons t0 ts0 =>
        rw [hs] at h
        simp only [List.cons.injEq] at h
        obtain ⟨rfl, rfl⟩ := h
        exact List.cons_prefix_cons.mpr ⟨rfl, ih t0 ts0 hs⟩
    · rw [hp] at h
      simp only [if_true] at h
      obtain ⟨rfl, rfl⟩ := List.cons.injEq .. |>.mp h
      exact List.nil_prefix

theorem splitChars_mem_within (p : Char → Bool) (cs : List Char) (frag : List Char)
    (h : frag ∈ splitChars p cs) : frag <:+: cs := by
  induction cs generalizing frag with
  | nil =>
    simp [splitChars] at h
    simp [h]
  | cons c cs ih =>
    simp only [splitChars] at h
    cases hp : p c
    · rw [hp] at h
      simp only [Bool.false_eq_true, if_false] at h
      cases hs : splitChars p cs with
      | nil => exact absurd hs (splitChars_ne_nil p cs)
      | cons t0 ts0 =>
        rw [hs] at h
        rcases List.mem_cons.mp h with rfl | hmem
        · exact (List.cons_prefix_cons.mpr ⟨rfl, splitChars_head_starts p cs t0 ts0 hs⟩).isInfix
        · exact (ih frag (hs ▸ List.mem_cons_of_mem t0 hmem)).trans (List.infix_cons (List.infix_refl cs))
    · rw [hp] at h
      simp only [if_true] at h
      rcases List.mem_cons.mp h with rfl | hmem
      · exact List.nil_infix
      · exact (ih frag hmem).trans (List.infix_cons (List.infix_refl cs))

theorem splitChars_mem_not_p (p : Char → Bool) (cs : List Char) (frag : List Char)
    (h : frag ∈ splitChars p cs) : ∀ x ∈ frag, p x = false := by
  induction cs generalizing frag with
  | nil =>
    simp [splitChars] at h
    simp [h]
  | cons c cs ih =>
    simp only [splitChars] at h
    cases hp : p c
    · rw [hp] at h
      simp only [Bool.false_eq_true, if_false] at h
      cases hs : splitChars p cs with
      | nil => exact absurd hs (splitChars_ne_nil p cs)
      | cons t0 ts0 =>
        rw [hs] at h
        rcases List.mem_cons.mp h with rfl | hmem
        · intro x hx
          rcases List.mem_cons.mp hx with rfl | hx0
          · exact hp
          · exact ih t0 (hs ▸ List.mem_cons_self t0 ts0) x hx0
        · exact ih frag (hs ▸ List.mem_cons_of_mem t0 hmem)
    · rw [hp] at h
      simp only [if_true] at h
      rcases List.mem_cons.mp h with rfl | hmem
      · intro x hx; exact absurd hx (List.not_mem_nil x)
      · exact ih frag hmem

theorem tokenizeText_length (s : String) (tok : String) (h : tok ∈ tokenizeText s) :
    1 < tok.length := by
  unfold tokenizeText at h
  exact (List.mem_filter.mp h).2 |> of_decide_eq_true

theorem tokenizeText_mem_data (s : String) (tok : String) (h : tok ∈ tokenizeText s) :
    tok.data ∈ splitChars isSpaceChar ((jsToLower s).data.map replaceNonWordChar) := by
  unfold tokenizeText at h
  have h1 := (List.mem_filter.mp h).1
  obtain ⟨frag, hfrag, rfl⟩ := List.mem_map.mp h1
  exact hfrag

theorem tokenizeText_chars (s : String) (tok : String) (h : tok ∈ tokenizeText s) :
    ∀ c ∈ tok.data, isWordChar c = true ∧ Char.toLower c = c := by
  intro c hc
  have hmem := tokenizeText_mem_data s tok h
  have hnotsp : isSpaceChar c = false := splitChars_mem_not_p _ _ _ hmem c hc
  have hcm : c ∈ (jsToLower s).data.map replaceNonWordChar :=
    (splitChars_mem_within _ _ _ hmem).subset hc
  obtain ⟨y, hy, hcy⟩ := List.mem_map.mp hcm
  obtain ⟨z, hzmem, hz⟩ := List.mem_map.mp
    (show y ∈ s.data.map Char.toLower by simpa [jsToLower] using hy)
  rw [replaceNonWordChar] at hcy
  by_cases hcond : (!isWordChar y && !isSpaceChar y) = true
  · rw [if_pos hcond] at hcy
    rw [← hcy] at hnotsp
    simp [isSpaceChar] at hnotsp
  · rw [if_neg hcond] at hcy
    subst hcy
    have hword : isWordChar y = true := by
      rcases Bool.eq_false_or_eq_true (isWordChar y) with hwt | hwf
      · exact hwt
      · exact absurd (by simp [hwf, hnotsp]) hcond
    exact ⟨hword, by rw [← hz]; exact toLower_toLower z⟩

theorem replaceNonWordChar_eq_self (y : Char)
    (h : isWordChar (replaceNonWordChar y) = true) : replaceNonWordChar y = y := by
  rw [replaceNonWordChar] at h ⊢
  by_cases hcond : (!isWordChar y && !isSpaceChar y) = true
  · rw [if_pos hcond] at h
    simp [isWordChar] at h
  · rw [if_neg hcond]

theorem map_replace_eq_of_word (m frag : List Char)
    (h : m.map replaceNonWordChar = frag) (hw : ∀ x ∈ frag, isWordChar x = true) :
    m = frag := by
  induction m generalizing frag with
  | nil => simpa using h.symm
  | cons y m ih =>
    rw [List.map_cons] at h
    subst h
    have hy : replaceNonWordChar y = y :=
      replaceNonWordChar_eq_self y (hw _ (List.mem_cons_self _ _))
    rw [hy]
    congr 1
    exact ih _ rfl (fun x hx => hw x (List.mem_cons_of_mem _ hx))

theorem token_infix_of_lowered (s tok : String)
    (hlow : ∀ c ∈ s.data, Char.toLower c = c) (h : tok ∈ tokenizeText s) :
    tok.data <:+: s.data := by
  have hmem := tokenizeText_mem_data s tok h
  have hdata : (jsToLower s).data = s.data := by
    show (s.data.map Char.toLower) = s.data
    calc s.data.map Char.toLower = s.data.map id := List.map_congr_left hlow
    _ = s.data := List.map_id s.data
  rw [hdata] at hmem
  have hinfix := splitChars_mem_within _ _ _ hmem
  obtain ⟨u, v, huv⟩ := hinfix
  obtain ⟨l₁, l₂, hl, hmu, hm2⟩ := List.map_eq_append_iff.mp huv.symm
  obtain ⟨a, m, hl1, hma, hmm⟩ := List.map_eq_append_iff.mp hmu
  have hwords : ∀ x ∈ tok.data, isWordChar x = true :=
    fun x hx => (tokenizeText_chars s tok h x hx).1
  have hmfrag : m = tok.data := map_replace_eq_of_word m tok.data hmm hwords
  exact ⟨a, l₂, by rw [hl, hl1, hmfrag]⟩

theorem jsIncludes_of_token (s tok : String)
    (hlow : ∀ c ∈ s.data, Char.toLower c = c) (h : tok ∈ tokenizeText s) :
    jsIncludes s tok = true :=
  decide_eq_true (token_infix_of_lowered s tok hlow h)

theorem contains_iff_mem (l : List String) (x : String) : l.contains x = true ↔ x ∈ l := by
  simp [List.contains, List.elem_iff]

theorem idxMem_remove (idx : String → Option (List String)) (tok0 docId0 tok i : String) :
    idxMem (removeIdFromToken idx tok0 docId0) tok i ↔
      idxMem idx tok i ∧ ¬(tok = tok0 ∧ i = docId0) := by
  by_cases ht : tok = tok0
  · subst ht
    cases hidx : idx tok with
    | none => simp [idxMem, removeIdFromToken, hidx]
    | some ids =>
      by_cases hrem : ids.filter (fun x => x != docId0) = []
      · simp only [idxMem, removeIdFromToken, if_pos rfl, hidx, hrem]
        simp
        intro hm
        have hx := List.filter_eq_nil_iff.mp hrem i hm
        simpa using hx
      · simp only [idxMem, removeIdFromToken, if_pos rfl, hidx, hrem, if_neg hrem]
        simp
  · simp [idxMem, removeIdFromToken, ht]

theorem idxMem_add (idx : String → Option (List String)) (tok0 docId0 tok i : String) :
    idxMem (addIdToToken idx tok0 docId0) tok i ↔
      idxMem idx tok i ∨ (tok = tok0 ∧ i = docId0) := by
  by_cases ht : tok = tok0
  · subst ht
    cases hidx : idx tok with
    | none => simp [idxMem, addIdToToken, hidx]
    | some ids =>
      by_cases hc : ids.contains docId0 = true
      · have hd0 : docId0 ∈ ids := by simpa [List.contains, List.elem_iff] using hc
        simp only [idxMem, addIdToToken, if_pos rfl, hidx, hc]
        simp
        intro hi
        subst hi
        exact hd0
      · simp only [idxMem, addIdToToken, if_pos rfl, hidx, hc]
        simp
  · simp [idxMem, addIdToToken, ht]

theorem idxMem_removeFold (toks : List String) (idx : String → Option (List String))
    (docId0 tok i : String) :
    idxMem (toks.foldl (fun m t => removeIdFromToken m t docId0) idx) tok i ↔
      idxMem idx tok i ∧ ¬(tok ∈ toks ∧ i = docId0) := by
  induction toks generalizing idx with
  | nil => simp
  | cons t ts ih =>
    rw [List.foldl_cons, ih, idxMem_remove]
    simp only [List.mem_cons]
    tauto

theorem idxMem_addFold (toks : List String) (idx : String → Option (List String))
    (docId0 tok i : String) :
    idxMem (toks.foldl (fun m t => addIdToToken m t docId0) idx) tok i ↔
      idxMem idx tok i ∨ (tok ∈ toks ∧ i = docId0) := by
  induction toks generalizing idx with
  | nil => simp
  | cons t ts ih =>
    rw [List.foldl_cons, ih, idxMem_add]
    simp only [List.mem_cons]
    tauto

theorem noEmpty_remove (idx : String → Option (List String)) (tok0 docId0 : String)
    (h : NoEmptyEntry idx) : NoEmptyEntry (removeIdFromToken idx tok0 docId0) := by
  intro tok
  unfold removeIdFromToken
  by_cases ht : tok = tok0
  · subst ht
    rw [if_pos rfl]
    cases hidx : idx tok with
    | none => simp
    | some ids =>
      by_cases hrem : ids.filter (fun x => x != docId0) = []
      · simp [hrem]
      · simp only [if_neg hrem]
        intro hcontra
        exact hrem (by injection hcontra)
  · rw [if_neg ht]
    exact h tok

theorem noEmpty_add (idx : String → Option (List String)) (tok0 docId0 : String)
    (h : NoEmptyEntry idx) : NoEmptyEntry (addIdToToken idx tok0 docId0) := by
  intro tok
  unfold addIdToToken
  by_cases ht : tok = tok0
  · subst ht
    rw [if_pos rfl]
    cases hidx : idx tok with
    | none => simp
    | some ids =>
      by_cases hc : ids.contains docId0 = true
      · simp only [hc, if_true]
        intro hcontra
        have hids : ids = [] := by injection hcontra
        subst hids
        simp [List.contains] at hc
      · simp only [hc, Bool.false_eq_true, if_false]
        intro hcontra
        have happ : ids ++ [docId0] = [] := by injection hcontra
        simp at happ
  · rw [if_neg ht]
    exact h tok

theorem noEmpty_removeFold (toks : List String) (idx : String → Option (List String))
    (docId0 : String) (h : NoEmptyEntry idx) :
    NoEmptyEntry (toks.foldl (fun m t => removeIdFromToken m t docId0) idx) := by
  induction toks generalizing idx with
  | nil => exact h
  | cons t ts ih => exact ih _ (noEmpty_remove idx t docId0 h)

theorem noEmpty_addFold (toks : List String) (idx : String → Option (List String))
    (docId0 : String) (h : NoEmptyEntry idx) :
    NoEmptyEntry (toks.foldl (fun m t => addIdToToken m t docId0) idx) := by
  induction toks generalizing idx with
  | nil => exact h
  | cons t ts ih => exact ih _ (noEmpty_add idx t docId0 h)

theorem jsSetDedup_mem_aux (l acc : List String) (x : String) :
    x ∈ l.foldl (fun acc tok => if acc.contains tok then acc else acc ++ [tok]) acc ↔
      x ∈ acc ∨ x ∈ l := by
  induction l generalizing acc with
  | nil => simp
  | cons t ts ih =>
    rw [List.foldl_cons, ih]
    by_cases hc : acc.contains t = true
    · rw [if_pos hc]
      have hmemt := (contains_iff_mem acc t).mp hc
      simp only [List.mem_cons]
      constructor
      · rintro (hx | hx)
        · exact Or.inl hx
        · exact Or.inr (Or.inr hx)
      · rintro (hx | rfl | hx)
        · exact Or.inl hx
        · exact Or.inl hmemt
        · exact Or.inr hx
    · rw [if_neg hc]
      simp only [List.mem_append, List.mem_singleton, List.mem_cons]
      tauto

theorem jsSetDedup_mem (l : List String) (x : String) :
    x ∈ jsSetDedup l ↔ x ∈ l := by
  rw [jsSetDedup, jsSetDedup_mem_aux]
  simp

theorem consistent_empty : Consistent emptySearchIndex := by
  constructor
  · intro tok
    simp [emptySearchIndex]
  · intro tok i
    simp [idxMem, emptySearchIndex]

theorem textLowered_empty : TextLowered emptySearchIndex := by
  intro i d hd
  simp [emptySearchIndex] at hd

theorem textLowered_indexDocument (st : SearchIndex) (c : Content)
    (h : TextLowered st) : TextLowered (indexDocument st c) := by
  intro i d hd x hx
  simp only [indexDocument] at hd
  by_cases hi : i = c._id
  · rw [if_pos hi] at hd
    obtain rfl : _ = d := by injection hd
    obtain ⟨z, hz, hzx⟩ := List.mem_map.mp hx
    rw [← hzx]
    exact toLower_toLower z
  · rw [if_neg hi] at hd
    exact h i d hd x hx

theorem consistent_indexDocument (st : SearchIndex) (c : Content)
    (h : Consistent st) : Consistent (indexDocument st c) := by
  obtain ⟨hne, hiff⟩ := h
  have hNEafter : NoEmptyEntry (indexDocument st c).tokenizedIndex := by
    simp only [indexDocument]
    cases hdoc : st.documents c._id with
    | some oldDoc => exact noEmpty_addFold _ _ _ (noEmpty_removeFold _ _ _ hne)
    | none => exact noEmpty_addFold _ _ _ hne
  refine ⟨hNEafter, ?_⟩
  intro tok i
  simp only [indexDocument]
  cases hdoc : st.documents c._id with
  | some oldDoc =>
    rw [idxMem_addFold, idxMem_removeFold]
    by_cases hi : i = c._id
    · rw [if_pos hi]
      have hold : idxMem st.tokenizedIndex tok i ↔ tok ∈ tokenizeText oldDoc.text := by
        rw [hiff tok i, hi]
        constructor
        · rintro ⟨d, hd, htok⟩
          rw [hdoc] at hd
          obtain rfl : oldDoc = d := by injection hd
          exact htok
        · intro htok
          exact ⟨oldDoc, hdoc, htok⟩
      rw [jsSetDedup_mem]
      constructor
      · rintro (⟨hmem, hnot⟩ | ⟨hnew, -⟩)
        · exact absurd ⟨hold.mp hmem, hi⟩ hnot
        · exact ⟨_, rfl, by rw [tokenizeText_jsToLower]; exact hnew⟩
      · rintro ⟨d, hd, htok⟩
        obtain rfl : _ = d := by injection hd
        right
        refine ⟨?_, hi⟩
        rw [← tokenizeText_jsToLower]
        exact htok
    · simp only [if_neg hi]
      constructor
      · rintro (⟨hmem, -⟩ | ⟨-, hic⟩)
        · exact (hiff tok i).mp hmem
        · exact absurd hic hi
      · intro hr
        exact Or.inl ⟨(hiff tok i).mpr hr, fun hx => hi hx.2⟩
  | none =>
    rw [idxMem_addFold]
    by_cases hi : i = c._id
    · rw [if_pos hi]
      rw [jsSetDedup_mem]
      constructor
      · rintro (hmem | ⟨hnew, -⟩)
        · obtain ⟨d, hd, -⟩ := (hiff tok _).mp hmem
          rw [hi, hdoc] at hd
          cases hd
        · exact ⟨_, rfl, by rw [tokenizeText_jsToLower]; exact hnew⟩
      · rintro ⟨d, hd, htok⟩
        obtain rfl : _ = d := by injection hd
        exact Or.inr ⟨by rw [← tokenizeText_jsToLower]; exact htok, hi⟩
    · simp only [if_neg hi]
      constructor
      · rintro (hmem | ⟨-, hic⟩)
        · exact (hiff tok i).mp hmem
        · exact absurd hic hi
      · intro hr
        exact Or.inl ((hiff tok i).mpr hr)

theorem consistent_foldl (cs : List Content) (st : SearchIndex)
    (hc : Consistent st) (hl : TextLowered st) :
    Consistent (cs.foldl indexDocument st) ∧ TextLowered (cs.foldl indexDocument st) := by
  induction cs generalizing st with
  | nil => exact ⟨hc, hl⟩
  | cons c cs ih =>
    rw [List.foldl_cons]
    exact ih _ (consistent_indexDocument st c hc) (textLowered_indexDocument st c hl)

theorem consistent_runIndex (cs : List Content) : Consistent (runIndex cs) :=
  (consistent_foldl cs emptySearchIndex consistent_empty textLowered_empty).1

theorem textLowered_runIndex (cs : List Content) : TextLowered (runIndex cs) :=
  (consistent_foldl cs emptySearchIndex consistent_empty textLowered_empty).2

theorem matching_fold_mem (ts : List String) (idx : String → Option (List String))
    (acc : List String) (i : String) :
    i ∈ ts.foldl (fun acc tok => acc.filter (fun x => ((idx tok).getD []).contains x)) acc ↔
      i ∈ acc ∧ ∀ tok ∈ ts, i ∈ (idx tok).getD [] := by
  induction ts generalizing acc with
  | nil => simp
  | cons t ts ih =>
    rw [List.foldl_cons, ih]
    simp only [List.mem_filter, List.forall_mem_cons, contains_iff_mem]
    tauto

theorem matchingIdsFor_mem (idx : String → Option (List String)) (t : String)
    (ts : List String) (i : String) :
    i ∈ matchingIdsFor idx (t :: ts) ↔ ∀ tok ∈ t :: ts, i ∈ (idx tok).getD [] := by
  unfold matchingIdsFor
  rw [matching_fold_mem]
  simp only [List.forall_mem_cons]

theorem getD_mem_iff_idxMem (idx : String → Option (List String)) (tok i : String) :
    i ∈ (idx tok).getD [] ↔ idxMem idx tok i := by
  cases hidx : idx tok <;> simp [idxMem, hidx]

theorem jsStartsWith_jsIncludes (s pat : String) (h : jsStartsWith s pat = true) :
    jsIncludes s pat = true := by
  have hpre : pat.data <+: s.data := by simpa [jsStartsWith] using h
  exact decide_eq_true hpre.isInfix

theorem relevanceOf_eq_specRelevance (queryTokens : List String) (titleText text : String) :
    relevanceOf queryTokens titleText text = specRelevance queryTokens titleText text := by
  have haux : ∀ (toks : List String) (a : Nat),
      toks.foldl
        (fun r tok =>
          let r1 :=
            if jsIncludes titleText tok then
              r + 3 + (if jsStartsWith titleText tok then 2 else 0)
            else r
          if jsIncludes text tok then r1 + 1 else r1)
        a = a + specRelevance toks titleText text := by
    intro toks
    induction toks with
    | nil => intro a; simp [specRelevance]
    | cons tok toks ih =>
      intro a
      rw [List.foldl_cons, ih]
      have hstep :
          (let r1 :=
            if jsIncludes titleText tok then
              a + 3 + (if jsStartsWith titleText tok then 2 else 0)
            else a
          if jsIncludes text tok then r1 + 1 else r1) =
            a + ((if jsIncludes titleText tok then 3 else 0) +
              (if jsStartsWith titleText tok then 2 else 0) +
              (if jsIncludes text tok then 1 else 0)) := by
        by_cases h1 : jsIncludes titleText tok = true
        · simp only [h1, if_true]
          by_cases h2 : jsStartsWith titleText tok = true <;>
            by_cases h3 : jsIncludes text tok = true <;> simp [h2, h3]
        · have h2 : jsStartsWith titleText tok = false := by
            rcases Bool.eq_false_or_eq_true (jsStartsWith titleText tok) with hx | hx
            · exact absurd (jsStartsWith_jsIncludes titleText tok hx)
                (by simpa using h1)
            · exact hx
          simp only [h1, h2]
          by_cases h3 : jsIncludes text tok = true <;> simp [h3]
      rw [hstep]
      simp [specRelevance]
      omega
  rw [relevanceOf, haux, specRelevance]
  omega

theorem relevanceOf_text_lower_bound (toks : List String) (titleText text : String)
    (h : ∀ tok ∈ toks, jsIncludes text tok = true) :
    toks.length ≤ relevanceOf toks titleText text := by
  rw [relevanceOf_eq_specRelevance]
  induction toks with
  | nil => simp
  | cons tok toks ih =>
    have htok := h tok (List.mem_cons_self tok toks)
    have hrest := ih (fun t ht => h t (List.mem_cons_of_mem tok ht))
    simp only [specRelevance, List.map_cons, List.sum_cons, List.length_cons] at hrest ⊢
    simp only [htok, if_true]
    have h3 : (0:Nat) ≤ (if jsIncludes titleText tok then 3 else 0) := Nat.zero_le _
    have h2 : (0:Nat) ≤ (if jsStartsWith titleText tok then 2 else 0) := Nat.zero_le _
    omega

theorem sorted_searchResultsFor (st : SearchIndex) (queryTokens : List String)
    (typeFilter : Option String) :
    (searchResultsFor st queryTokens typeFilter).Pairwise relevanceGe := by
  unfold searchResultsFor
  exact List.sorted_insertionSort relevanceGe _

theorem sorted_search_results (st : SearchIndex) (q : String) (page pageSize : Nat)
    (typeFilter : Option String) :
    ((search st q page pageSize typeFilter).results).Pairwise relevanceGe := by
  unfold search
  by_cases h0 : (jsToLower q).length = 0
  · simp only [h0, if_pos rfl]
    exact List.Pairwise.nil
  · rw [if_neg h0]
    by_cases h1 : tokenizeText (jsToLower q) = []
    · rw [if_pos h1]
      exact List.Pairwise.nil
    · rw [if_neg h1]
      exact List.Pairwise.sublist ((List.take_sublist _ _).trans (List.drop_sublist _ _))
        (sorted_searchResultsFor st (tokenizeText (jsToLower q)) typeFilter)

/-- C1: after any sequence of `indexDocument` calls starting from the cleared
index, a document id appears under a token exactly when that token is among
the tokens of the document's current stored text; entries whose set becomes
empty are deleted; indexing D with text "alpha beta" and re-indexing D with
text "gamma" leaves "alpha" and "beta" without D (indeed deleted) and
"gamma" containing D. -/
theorem claim_C1_index_consistency :
    (∀ (contents : List Content) (tok docId : String),
      idxMem (runIndex contents).tokenizedIndex tok docId ↔
        ∃ d, (runIndex contents).documents docId = some d ∧
          tok ∈ tokenizeText d.text) ∧
    (∀ (contents : List Content) (tok : String),
      (runIndex contents).tokenizedIndex tok ≠ some []) ∧
    (runIndex [exContentAlphaBeta, exContentGamma]).tokenizedIndex "alpha" = none ∧
    (runIndex [exContentAlphaBeta, exContentGamma]).tokenizedIndex "beta" = none ∧
    (runIndex [exContentAlphaBeta, exContentGamma]).tokenizedIndex "gamma" = some ["D"] := by
  refine ⟨?_, ?_, by decide, by decide, by decide⟩
  · intro cs tok docId
    exact (consistent_runIndex cs).2 tok docId
  · intro cs tok
    exact (consistent_runIndex cs).1 tok

/-- C2 counterexample: with a prior build at time 1, an incremental run at
time 10 whose fetch returns no changed documents leaves `lastIndexedTime` at
1 instead of advancing it to 10, contradicting "advances lastIndexedTime to
now on every successful run". -/
theorem claim_C2_counterexample :
    (incrementalIndexUpdate (.ok []) (.ok []) 10 exStateC2).lastIndexedTime = some 1 ∧
    (incrementalIndexUpdate (.ok []) (.ok []) 10 exStateC2).lastIndexedTime ≠ some 10 := by
  constructor
  · rfl
  · decide

/-- C2 amended: with a prior build recorded, a successful incremental run
advances `lastIndexedTime` to now exactly when at least one fetched document
passes the changed-since-and-published filter; with zero changed documents
it returns early and the whole state, `lastIndexedTime` included, is
unchanged. -/
theorem claim_C2_lastIndexedTime (fetchPublished : Except Unit (List Content))
    (allContent : List Content) (now t : Int) (st : SearchAPIState)
    (hprev : st.lastIndexedTime = some t) :
    (allContent.filter
        (fun content => t < content.updatedAt && content.state == "published") = [] →
      incrementalIndexUpdate (.ok allContent) fetchPublished now st = st) ∧
    (allContent.filter
        (fun content => t < content.updatedAt && content.state == "published") ≠ [] →
      (incrementalIndexUpdate (.ok allContent) fetchPublished now st).lastIndexedTime =
        some now) := by
  unfold incrementalIndexUpdate
  rw [hprev]
  constructor
  · intro hempty
    simp [hempty]
  · intro hnon
    simp [hnon]

theorem claim_C2_lastIndexedTime_witness :
    exStateC2.lastIndexedTime = some 1 ∧
    (incrementalIndexUpdate (.ok []) (.ok []) 10 exStateC2 = exStateC2) ∧
    ((incrementalIndexUpdate (.ok [exContentGamma]) (.ok []) 10 exStateC2).lastIndexedTime =
      some 10) := by
  refine ⟨rfl, ?_, ?_⟩
  · exact (claim_C2_lastIndexedTime (.ok []) [] 10 1 exStateC2 rfl).1 (by decide)
  · exact (claim_C2_lastIndexedTime (.ok []) [exContentGamma] 10 1 exStateC2 rfl).2 (by decide)

/-- C7: a fetch failure in `buildSearchIndex` leaves the documents map, the
token index and `lastIndexedTime` untouched, and a fetch failure in
`refreshRoutes` leaves the route cache untouched; both functions return
normally (the catch block only logs), so the error reaches no caller. -/
theorem claim_C7_fetch_failure (err : Unit) (now : Int) (st : SearchAPIState)
    (cache : String → Option RouteEntry) :
    buildSearchIndex (.error err) now st = st ∧
    refreshRoutes (.error err) cache = cache :=
  ⟨rfl, rfl⟩

/-- C8: the admin proxy accepts any upstream status in [200, 500), relaying
the status and all upstream headers; on 304 it ends the response with no
body; on 404 the client sees a 404 (never a 500) with the upstream body
relayed. -/
theorem claim_C8_admin_proxy (r : UpstreamResponse) (h2 : 200 ≤ r.status)
    (h5 : r.status < 500) :
    (adminProxy (.ok r)).status = r.status ∧
    (adminProxy (.ok r)).headers = r.headers ∧
    (r.status = 304 → (adminProxy (.ok r)).body = none) ∧
    (r.status ≠ 304 → (adminProxy (.ok r)).body = some r.body) ∧
    (r.status = 404 →
      (adminProxy (.ok r)).status = 404 ∧ (adminProxy (.ok r)).status ≠ 500 ∧
      (adminProxy (.ok r)).body = some r.body) := by
  have hval : adminValidateStatus r.status = true := by
    simp only [adminValidateStatus, Bool.and_eq_true, decide_eq_true_eq]
    omega
  have hred : adminProxy (.ok r) =
      { status := r.status, headers := r.headers,
        body := if r.status == 304 then none else some r.body } := by
    simp only [adminProxy, axiosRequest, hval, if_true]
  rw [hred]
  refine ⟨rfl, rfl, ?_, ?_, ?_⟩
  · intro h304
    simp [h304]
  · intro hn304
    simp [hn304]
  · intro h404
    rw [h404]
    simp

theorem claim_C8_admin_proxy_witness :
    (adminProxy (.ok { status := 304, headers := [("etag", "abc")], body := "" })).status = 304 ∧
    (adminProxy (.ok { status := 304, headers := [("etag", "abc")], body := "" })).headers =
      [("etag", "abc")] ∧
    (adminProxy (.ok { status := 304, headers := [("etag", "abc")], body := "" })).body = none ∧
    (adminProxy (.ok { status := 404, headers := [], body := "missing" })).status = 404 ∧
    (adminProxy (.ok { status := 404, headers := [], body := "missing" })).body =
      some "missing" := by
  have h304 := claim_C8_admin_proxy { status := 304, headers := [("etag", "abc")], body := "" }
    (by decide) (by decide)
  have h404 := claim_C8_admin_proxy { status := 404, headers := [], body := "missing" }
    (by decide) (by decide)
  exact ⟨h304.1, h304.2.1, h304.2.2.1 rfl, (h404.2.2.2.2 rfl).1, (h404.2.2.2.2 rfl).2.2⟩

/-- C9: `tokenizeText` lowercases, turns punctuation into whitespace, splits
on whitespace and drops tokens of length at most one: the concrete example
evaluates as specified, every emitted token has length greater than one and
consists of already-lowercased word characters, and the function is
insensitive to the case of its input. -/
theorem claim_C9_tokenize :
    tokenizeText "Foo, bar-baz!" = ["foo", "bar", "baz"] ∧
    (∀ s tok, tok ∈ tokenizeText s → 1 < tok.length) ∧
    (∀ s tok, tok ∈ tokenizeText s →
      ∀ c ∈ tok.data, isWordChar c = true ∧ Char.toLower c = c) ∧
    (∀ s, tokenizeText (jsToLower s) = tokenizeText s) :=
  ⟨by decide, tokenizeText_length, tokenizeText_chars, tokenizeText_jsToLower⟩

theorem claim_C9_tokenize_witness :
    1 < ("foo" : String).length ∧ isWordChar 'f' = true ∧ Char.toLower 'f' = 'f' := by
  refine ⟨claim_C9_tokenize.2.1 "Foo, bar-baz!" "foo" (by decide), ?_, ?_⟩
  · exact (claim_C9_tokenize.2.2.1 "Foo, bar-baz!" "foo" (by decide) 'f' (by decide)).1
  · exact (claim_C9_tokenize.2.2.1 "Foo, bar-baz!" "foo" (by decide) 'f' (by decide)).2

/-- C4: the candidate set of a search is the intersection of the token-index
sets of all query tokens, an unindexed token acting as the empty set; with
exactly D1 ("apple pie") and D2 ("apple sauce") indexed, "apple pie" matches
only D1, "apple" matches both, and "pie sauce" matches neither. -/
theorem claim_C4_and_semantics :
    (∀ (idx : String → Option (List String)) (t : String) (ts : List String) (i : String),
      i ∈ matchingIdsFor idx (t :: ts) ↔ ∀ tok ∈ t :: ts, i ∈ (idx tok).getD []) ∧
    ((search (runIndex [exContentApplePie, exContentAppleSauce]) "apple pie" 1 10
      none).results.map (fun r => r.id) = ["D1"]) ∧
    ((search (runIndex [exContentApplePie, exContentAppleSauce]) "apple" 1 10
      none).results.map (fun r => r.id) = ["D1", "D2"]) ∧
    ((search (runIndex [exContentApplePie, exContentAppleSauce]) "pie sauce" 1 10
      none).results = []) := by
  refine ⟨?_, by decide, by decide, by decide⟩
  intro idx t ts i
  exact matchingIdsFor_mem idx t ts i

/-- C5: the relevance computed by the search handler equals, per query token,
3 for a title occurrence plus 2 more when the lowercased title starts with
the token plus 1 for a full-text occurrence, summed; the result lists of
`search` are sorted by descending relevance; and under a single query token a
document whose title contains the token scores strictly higher than one where
the token occurs only in the body text. -/
theorem claim_C5_relevance :
    (∀ (queryTokens : List String) (titleText text : String),
      relevanceOf queryTokens titleText text = specRelevance queryTokens titleText text) ∧
    (∀ (st : SearchIndex) (q : String) (page pageSize : Nat) (typeFilter : Option String),
      ((search st q page pageSize typeFilter).results).Pairwise relevanceGe) ∧
    (∀ (tok titleA textA titleB textB : String),
      jsIncludes titleA tok = true → jsIncludes textA tok = true →
      jsIncludes titleB tok = false →
      relevanceOf [tok] titleB textB < relevanceOf [tok] titleA textA) := by
  refine ⟨relevanceOf_eq_specRelevance, sorted_search_results, ?_⟩
  intro tok titleA textA titleB textB hA1 hA2 hB1
  rw [relevanceOf_eq_specRelevance, relevanceOf_eq_specRelevance]
  simp only [specRelevance, List.map_cons, List.map_nil, List.sum_cons, List.sum_nil]
  rw [hA1, hA2, hB1]
  have hB2 : jsStartsWith titleB tok = false := by
    rcases Bool.eq_false_or_eq_true (jsStartsWith titleB tok) with hx | hx
    · rw [jsStartsWith_jsIncludes titleB tok hx] at hB1
      cases hB1
    · exact hx
  rw [hB2]
  by_cases h3 : jsIncludes textB tok = true <;>
    by_cases h4 : jsStartsWith titleA tok = true <;> simp [h3, h4]

theorem claim_C5_relevance_witness :
    jsIncludes "apple pie" "apple" = true ∧
    jsIncludes "apple pie recipe" "apple" = true ∧
    jsIncludes "pear tart" "apple" = false ∧
    relevanceOf ["apple"] "pear tart" "tart with apple" <
      relevanceOf ["apple"] "apple pie" "apple pie recipe" := by
  refine ⟨by decide, by decide, by decide, ?_⟩
  exact claim_C5_relevance.2.2 "apple" "apple pie" "apple pie recipe" "pear tart"
    "tart with apple" (by decide) (by decide) (by decide)

/-- C6: the search response's `results` is exactly the slice
`[(page-1)*pageSize, page*pageSize)` of the sorted filtered list, hence of
length at most `pageSize`; `total` is the full filtered count; `totalPages`
is the ceiling of `total / pageSize` (characterised by its two bounds); and a
page beyond `totalPages` yields an empty slice with `total` unchanged. -/
theorem claim_C6_pagination (st : SearchIndex) (q : String) (page pageSize : Nat)
    (typeFilter : Option String) (hp : 1 ≤ page) (hps : 1 ≤ pageSize) :
    ((search st q page pageSize typeFilter).results).length ≤ pageSize ∧
    (search st q page pageSize typeFilter).results =
      ((searchResultsFor st (tokenizeText (jsToLower q)) typeFilter).drop
        ((page - 1) * pageSize)).take pageSize ∧
    (search st q page pageSize typeFilter).total =
      (searchResultsFor st (tokenizeText (jsToLower q)) typeFilter).length ∧
    (search st q page pageSize typeFilter).total ≤
      (search st q page pageSize typeFilter).totalPages * pageSize ∧
    (search st q page pageSize typeFilter).totalPages * pageSize <
      (search st q page pageSize typeFilter).total + pageSize ∧
    ((search st q page pageSize typeFilter).totalPages < page →
      (search st q page pageSize typeFilter).results = []) := by
  unfold search
  by_cases h0 : (jsToLower q).length = 0
  · rw [if_pos h0]
    have hd : (jsToLower q).data = [] := List.length_eq_zero.mp h0
    have hq : tokenizeText (jsToLower q) = [] := by
      unfold tokenizeText
      rw [jsToLower_idem, hd]
      rfl
    have hres : searchResultsFor st (tokenizeText (jsToLower q)) typeFilter = [] := by
      rw [hq]
      rfl
    rw [hres]
    refine ⟨by simp, by simp, by simp, by simp, by simpa using hps, by simp⟩
  · rw [if_neg h0]
    by_cases h1 : tokenizeText (jsToLower q) = []
    · rw [if_pos h1]
      have hres : searchResultsFor st (tokenizeText (jsToLower q)) typeFilter = [] := by
        rw [h1]
        rfl
      rw [hres]
      refine ⟨by simp, by simp, by simp, by simp, by simpa using hps, by simp⟩
    · rw [if_neg h1]
      refine ⟨List.length_take_le _ _, rfl, rfl, ?_, ?_, ?_⟩ <;>
        · obtain ⟨tp, htp⟩ : ∃ tp,
              ((searchResultsFor st (tokenizeText (jsToLower q)) typeFilter).length +
                pageSize - 1) / pageSize = tp := ⟨_, rfl⟩
          obtain ⟨md, hmd⟩ : ∃ md,
              ((searchResultsFor st (tokenizeText (jsToLower q)) typeFilter).length +
                pageSize - 1) % pageSize = md := ⟨_, rfl⟩
          have hdm := Nat.div_add_mod
            ((searchResultsFor st (tokenizeText (jsToLower q)) typeFilter).length +
              pageSize - 1) pageSize
          rw [htp, hmd] at hdm
          have hmlt : md < pageSize := by
            rw [← hmd]
            exact Nat.mod_lt _ (by omega)
          simp only [htp]
          first
          | · rw [Nat.mul_comm]
              omega
          | · rw [Nat.mul_comm]
              omega
          | · intro hgt
              have hle : (searchResultsFor st (tokenizeText (jsToLower q))
                  typeFilter).length ≤ (page - 1) * pageSize := by
                have h2 : tp * pageSize ≤ (page - 1) * pageSize :=
                  Nat.mul_le_mul_right pageSize (by omega)
                rw [Nat.mul_comm] at h2
                omega
              rw [List.drop_eq_nil_of_le hle, List.take_nil]

theorem claim_C6_pagination_witness :
    1 ≤ 2 ∧ 1 ≤ (5:Nat) ∧
    (((search (runIndex []) "apple" 2 5 none).results).length ≤ 5 ∧
    (search (runIndex []) "apple" 2 5 none).results =
      ((searchResultsFor (runIndex []) (tokenizeText (jsToLower "apple")) none).drop
        ((2 - 1) * 5)).take 5 ∧
    (search (runIndex []) "apple" 2 5 none).total =
      (searchResultsFor (runIndex []) (tokenizeText (jsToLower "apple")) none).length ∧
    (search (runIndex []) "apple" 2 5 none).total ≤
      (search (runIndex []) "apple" 2 5 none).totalPages * 5 ∧
    (search (runIndex []) "apple" 2 5 none).totalPages * 5 <
      (search (runIndex []) "apple" 2 5 none).total + 5 ∧
    ((search (runIndex []) "apple" 2 5 none).totalPages < 2 →
      (search (runIndex []) "apple" 2 5 none).results = [])) :=
  ⟨by decide, by decide, claim_C6_pagination (runIndex []) "apple" 2 5 none (by decide) (by decide)⟩

/-- C3 counterexample: with path "about" present in the route cache and the
frontend answering the proxied GET with a 404 and body "gone", the router
replies 500 with a fixed error message, so the hit path does not relay the
upstream status and body as the claim states. -/
theorem claim_C3_counterexample :
    exRouteCacheAbout "about" =
      some { contentId := "id1", documentType := "simple-page" } ∧
    exFrontendNotFound "/about" =
      .ok { status := 404, headers := [], body := "gone" } ∧
    routerGetHandler exRouteCacheAbout exFrontendNotFound none "about" =
      { status := 500, headers := [], body := some "Error processing content request" } ∧
    (routerGetHandler exRouteCacheAbout exFrontendNotFound none "about").status ≠ 404 := by
  refine ⟨rfl, rfl, by decide, by decide⟩

/-- C3 amended: for a GET to a non-admin, non-root, non-search path the
router looks the path up in the route cache; on a miss it answers with a 404
status, carrying the frontend's not-found page body whenever that page fetch
returns an accepted (2xx) status; on a hit it proxies a GET to the frontend
at the same path and relays the body with a fixed 200 status when the
upstream answers 2xx, while a non-2xx upstream answer is converted to a 500
with a fixed error body rather than relayed. -/
theorem claim_C3_content_path (routeCache : String → Option RouteEntry)
    (frontend : String → FetchOutcome) (q : Option String) (path : String)
    (hs : jsStartsWith path "search" = false) (hr : path ≠ "") :
    (routeCache path = none → (routerGetHandler routeCache frontend q path).status = 404) ∧
    (∀ r, routeCache path = none → frontend "/404" = .ok r →
      axiosDefaultValidate r.status = true →
      (routerGetHandler routeCache frontend q path).body = some r.body) ∧
    (∀ e r, routeCache path = some e → frontend ("/" ++ path) = .ok r →
      axiosDefaultValidate r.status = true →
      routerGetHandler routeCache frontend q path =
        { status := 200, headers := [], body := some r.body }) ∧
    (∀ e r, routeCache path = some e → frontend ("/" ++ path) = .ok r →
      axiosDefaultValidate r.status = false →
      routerGetHandler routeCache frontend q path =
        { status := 500, headers := [], body := some "Error processing content request" }) := by
  have hred : routerGetHandler routeCache frontend q path =
      match routeCache path with
      | none =>
        match axiosRequest axiosDefaultValidate (frontend "/404") with
        | .ok r => { status := 404, headers := [], body := some r.body }
        | .error _ => { status := 404, headers := [], body := some "Page not found" }
      | some _ =>
        match axiosRequest axiosDefaultValidate (frontend ("/" ++ path)) with
        | .ok r => { status := 200, headers := [], body := some r.body }
        | .error _ =>
          { status := 500, headers := [], body := some "Error processing content request" } := by
    unfold routerGetHandler
    rw [hs]
    simp only [Bool.false_eq_true, if_false, if_neg hr]
  refine ⟨?_, ?_, ?_, ?_⟩
  · intro hnone
    rw [hred, hnone]
    cases haxios : axiosRequest axiosDefaultValidate (frontend "/404") <;> rfl
  · intro r hnone hok hval
    rw [hred, hnone, hok]
    simp only [axiosRequest, hval, if_true]
  · intro e r hsome hok hval
    rw [hred, hsome, hok]
    simp only [axiosRequest, hval, if_true]
  · intro e r hsome hok hval
    rw [hred, hsome, hok]
    simp only [axiosRequest, hval, Bool.false_eq_true, if_false]

theorem claim_C3_content_path_witness :
    jsStartsWith "about" "search" = false ∧ "about" ≠ "" ∧
    exRouteCacheAbout "missing-path" = none ∧
    (routerGetHandler exRouteCacheAbout exFrontendNotFound none "missing-path").status =
      404 := by
  refine ⟨by decide, by decide, by decide, ?_⟩
  exact (claim_C3_content_path exRouteCacheAbout exFrontendNotFound none "missing-path"
    (by decide) (by decide)).1 (by decide)

/-- C10: for any state built by `indexDocument` runs, every returned search
result has relevance at least the number of query tokens, hence strictly
positive: each candidate lies in every query token's index set, index
membership puts the token in the stored text, and each text occurrence
contributes at least one point. -/
theorem claim_C10_min_relevance (contents : List Content) (q : String)
    (page pageSize : Nat) (typeFilter : Option String) (r : SearchResult)
    (hr : r ∈ (search (runIndex contents) q page pageSize typeFilter).results) :
    tokenizeText (jsToLower q) ≠ [] ∧
    (tokenizeText (jsToLower q)).length ≤ r.relevance ∧ 0 < r.relevance := by
  unfold search at hr
  by_cases h0 : (jsToLower q).length = 0
  · rw [if_pos h0] at hr
    simp at hr
  · rw [if_neg h0] at hr
    by_cases h1 : tokenizeText (jsToLower q) = []
    · rw [if_pos h1] at hr
      simp at hr
    · rw [if_neg h1] at hr
      have hr2 : r ∈ ((searchResultsFor (runIndex contents) (tokenizeText (jsToLower q))
          typeFilter).drop ((page - 1) * pageSize)).take pageSize := hr
      have hr3 : r ∈ searchResultsFor (runIndex contents) (tokenizeText (jsToLower q))
          typeFilter :=
        ((List.take_sublist _ _).trans (List.drop_sublist _ _)).subset hr2
      have hr4 : r ∈ (matchingIdsFor (runIndex contents).tokenizedIndex
          (tokenizeText (jsToLower q))).filterMap
            (searchResultFor (runIndex contents) (tokenizeText (jsToLower q)) typeFilter) :=
        (List.perm_insertionSort relevanceGe _).subset hr3
      obtain ⟨docId, hdocId, hsome⟩ := List.mem_filterMap.mp hr4
      cases hdoc : (runIndex contents).documents docId with
      | none =>
        simp [searchResultFor, hdoc] at hsome
      | some doc =>
        simp only [searchResultFor, hdoc] at hsome
        by_cases hty : matchesType typeFilter doc.type = true
        · rw [if_pos hty] at hsome
          by_cases hrel : relevanceOf (tokenizeText (jsToLower q)) (jsToLower doc.title)
              doc.text = 0
          · rw [if_pos hrel] at hsome
            cases hsome
          · rw [if_neg hrel] at hsome
            obtain rfl : _ = r := by injection hsome
            have hcand : ∀ t ∈ tokenizeText (jsToLower q),
                docId ∈ ((runIndex contents).tokenizedIndex t).getD [] := by
              intro t ht
              cases htoks : tokenizeText (jsToLower q) with
              | nil => rw [htoks] at ht; cases ht
              | cons t0 ts0 =>
                rw [htoks] at hdocId ht
                exact (matchingIdsFor_mem _ t0 ts0 docId).mp hdocId t ht
            refine ⟨h1, ?_, Nat.pos_of_ne_zero hrel⟩
            apply relevanceOf_text_lower_bound
            intro tok htok
            have hidx : idxMem (runIndex contents).tokenizedIndex tok docId :=
              (getD_mem_iff_idxMem _ tok docId).mp (hcand tok htok)
            obtain ⟨d2, hd2, htokd⟩ :=
              ((consistent_runIndex contents).2 tok docId).mp hidx
            rw [hdoc] at hd2
            obtain rfl : doc = d2 := by injection hd2
            exact jsIncludes_of_token doc.text tok
              (textLowered_runIndex contents docId doc hdoc) htokd
        · rw [if_neg hty] at hsome
          cases hsome

theorem claim_C10_min_relevance_witness :
    ({ id := "D1", title := "apple", path := "d1", type := "simple-page",
       snippet := "apple pie", updatedAt := 1, relevance := 6 } : SearchResult) ∈
      (search (runIndex [exContentApplePie]) "apple" 1 10 none).results ∧
    tokenizeText (jsToLower "apple") ≠ [] ∧
    (tokenizeText (jsToLower "apple")).length ≤ 6 ∧ (0:Nat) < 6 := by
  refine ⟨by decide, ?_⟩
  have h := claim_C10_min_relevance [exContentApplePie] "apple" 1 10 none
    { id := "D1", title := "apple", path := "d1", type := "simple-page",
      snippet := "apple pie", updatedAt := 1, relevance := 6 } (by decide)
  exact ⟨h.1, h.2.1, h.2.2⟩

end MiniGovuk
